import Mathlib

/-!
Verification of the bilingual text-resolution and table-rendering core of the
`ai-hedge-fund` presentation layer (`src/utils/language.py`,
`src/utils/display.py`).

The Python code is shallowly embedded:
* strings are Lean `String`s (with proofs carried out on their `.data`
  character lists); Python `str.strip` / `str.lower` / `str.upper` are modelled
  over the same character alphabet (`Char.isWhitespace` stands for Python's
  whitespace class — identical on the ASCII and CJK text that occurs here);
* numeric fields that the code renders with `:,.2f` / `:.2f` / `:,.0f` are
  modelled as exact integers scaled to the displayed precision (cents for
  two-decimal currency fields, hundredths for ratios); binary floating point
  rounding is outside the scope of the rendering logic being verified;
* fallible operations (`str.format`, `float(...)`) return `Except`/`Option`;
* functions that in Python recurse over an unbounded structure are written
  with an explicit fuel argument (always instantiated with the input length)
  so that every definition is executable by the kernel.
-/

namespace AIHedgeFund

/-! ### colorama constants (external colorization capability)

The terminal escape sequences emitted by `colorama` and interpolated by the
f-strings in `display.py`. -/

def foreGREEN : String := "\x1b[32m"

def foreRED : String := "\x1b[31m"

def foreYELLOW : String := "\x1b[33m"

def foreCYAN : String := "\x1b[36m"

def foreWHITE : String := "\x1b[37m"

def foreBLUE : String := "\x1b[34m"

def styleBRIGHT : String := "\x1b[1m"

def styleRESET : String := "\x1b[0m"

/-! ### Python string primitives -/

/-- Python truthiness-based `a or b` on strings: `a` if non-empty, else `b`. -/
def pyOr (a b : String) : String := if a = "" then b else a

/-- Python `str.strip()`: remove leading and trailing whitespace. -/
def pyStrip (s : String) : String :=
  ⟨((s.data.dropWhile Char.isWhitespace).reverse.dropWhile Char.isWhitespace).reverse⟩

/-- Python `str.lower()` (ASCII case folding, which is all the code relies on). -/
def pyLower (s : String) : String := ⟨s.data.map Char.toLower⟩

/-- Python `str.upper()` (ASCII case folding, which is all the code relies on). -/
def pyUpper (s : String) : String := ⟨s.data.map Char.toUpper⟩

/-- Python `joiner.join(parts)`. -/
def pyJoin (joiner : String) : List String → String
  | [] => ""
  | [x] => x
  | x :: xs => x ++ joiner ++ pyJoin joiner xs

/-- Python `sub in s` substring test. -/
def pyContains (s sub : String) : Bool := decide (sub.data <:+: s.data)

/-! ### `language.py`: the `Language` enum -/

inductive Language where
  | ZH
  | EN
  | BOTH
deriving DecidableEq, Repr

/-- The `Language(value)` enum constructor: succeeds exactly on the three
member values `"zh"`, `"en"`, `"both"`, otherwise raises `ValueError`
(modelled by `none`). -/
def langCtor (value : String) : Option Language :=
  if value = "zh" then some .ZH
  else if value = "en" then some .EN
  else if value = "both" then some .BOTH
  else none

/-- `Language.from_value`: `if not value: return ZH`, then
`Language(value.lower())` with `ValueError` caught and replaced by `ZH`.
`none` models Python `None`. -/
def Language.from_value (value : Option String) : Language :=
  match value with
  | none => .ZH
  | some v => if v = "" then .ZH else (langCtor (pyLower v)).getD .ZH

def DEFAULT_LANGUAGE : Language := .ZH

/-! ### `language.py`: `combine_translations` -/

/-- `combine_translations(zh_text, en_text, language, joiner=" / ")`.
The default joiner `" / "` is passed explicitly at every call site. -/
def combine_translations (zh_text en_text : String) (language : Language)
    (joiner : String) : String :=
  match language with
  | .ZH => pyOr zh_text en_text
  | .EN => pyOr en_text zh_text
  | .BOTH =>
    let zh := pyStrip zh_text
    let en := pyStrip en_text
    let parts := (if zh ≠ "" then [zh] else []) ++
      (if en ≠ "" ∧ en ≠ zh then [en] else [])
    if parts = [] then pyOr en_text zh_text else pyJoin joiner parts

/-! ### `language.py`: the static translation tables

`TRANSLATIONS` is embedded as an association list of
`(key, zh-text, en-text)` triples, in source order.  Every entry of the Python
dict carries exactly the two sub-keys `"zh"` and `"en"`, so a pair of strings
is a faithful rendering of an entry. -/

def TRANSLATIONS : List (String × String × String) := [
  ("cli.select_analysts", "选择你的 AI 分析师。", "Select your AI analysts."),
  ("cli.instructions",
    "\n\n操作说明：\n1. 按空格键选择/取消分析师。\n2. 按 'a' 键全选/取消全选。\n3. 按回车键开始运行。\n",
    "\n\nInstructions:\n1. Press Space to select/unselect analysts.\n2. Press 'a' to select/unselect all.\n3. Press Enter to run the hedge fund.\n"),
  ("cli.select_llm", "选择你要使用的大模型：", "Select your LLM model:"),
  ("cli.select_ollama_model", "选择你要使用的 Ollama 本地模型：", "Select your Ollama model:"),
  ("cli.enter_custom_model", "请输入自定义模型名称：", "Enter the custom model name:"),
  ("cli.interrupt", "\n\n检测到中断，程序退出……", "\n\nInterrupt received. Exiting..."),
  ("cli.selected_analysts", "已选择分析师：{names}", "Selected analysts: {names}"),
  ("cli.selected_model", "已选择 {provider} 模型：{model}", "Selected {provider} model: {model}"),
  ("cli.using_ollama", "正在使用 Ollama 进行本地推理。", "Using Ollama for local LLM inference."),
  ("cli.validation.select_one", "至少选择一位分析师。", "You must select at least one analyst."),
  ("cli.invalid_start_date", "开始日期必须是 YYYY-MM-DD 格式", "Start date must be in YYYY-MM-DD format"),
  ("cli.invalid_end_date", "结束日期必须是 YYYY-MM-DD 格式", "End date must be in YYYY-MM-DD format"),
  ("cli.analysis_for", "{ticker} 分析", "Analysis for {ticker}"),
  ("display.analysis_heading", "分析：{ticker}", "Analysis: {ticker}"),
  ("display.agent_analysis_header", "代理分析：{ticker}", "Agent Analysis: {ticker}"),
  ("display.trading_decision_header", "交易决策：{ticker}", "Trading Decision: {ticker}"),
  ("display.portfolio_summary_header", "投资组合汇总", "Portfolio Summary"),
  ("display.portfolio_strategy_header", "组合策略说明", "Portfolio Strategy"),
  ("display.no_decisions", "未生成任何交易决策", "No trading decisions available"),
  ("display.table.agent", "代理", "Agent"),
  ("display.table.signal", "信号", "Signal"),
  ("display.table.confidence", "置信度", "Confidence"),
  ("display.table.reasoning", "推理", "Reasoning"),
  ("display.table.action", "操作", "Action"),
  ("display.table.quantity", "数量", "Quantity"),
  ("display.table.ticker", "标的", "Ticker"),
  ("display.table.portfolio_confidence", "置信度", "Confidence"),
  ("display.portfolio_strategy_text", "{text}", "{text}"),
  ("backtest.prefetch_start", "\n正在预加载整个回测区间所需的数据……", "\nPre-fetching data for the entire backtest period..."),
  ("backtest.prefetch_complete", "数据预加载完成。", "Data pre-fetch complete."),
  ("backtest.start", "\n开始执行回测……", "\nStarting backtest..."),
  ("backtest.warning.no_price_data", "警告：{ticker} 在 {date} 没有价格数据", "Warning: No price data for {ticker} on {date}"),
  ("backtest.error.fetch_price_range",
    "获取 {ticker} 在 {start} 至 {end} 期间的价格数据时出错：{error}",
    "Error fetching price for {ticker} between {start} and {end}: {error}"),
  ("backtest.warning.skip_day_missing_data", "由于缺少价格数据，跳过 {date} 的交易日", "Skipping trading day {date} due to missing price data"),
  ("backtest.error.fetch_prices_day", "获取 {date} 的价格数据时出错：{error}", "Error fetching prices for {date}: {error}"),
  ("backtest.no_portfolio_data", "未找到投资组合数据，请先运行回测。", "No portfolio data found. Please run the backtest first."),
  ("backtest.no_performance_data", "没有可用于分析的绩效数据。", "No valid performance data to analyze."),
  ("backtest.performance_summary", "投资组合绩效摘要", "Portfolio Performance Summary"),
  ("backtest.total_return", "总收益", "Total Return"),
  ("backtest.total_realized_gains", "累计已实现盈亏", "Total Realized Gains/Losses"),
  ("backtest.chart.portfolio_value_title", "投资组合价值随时间变化", "Portfolio Value Over Time"),
  ("backtest.chart.portfolio_value_ylabel", "投资组合价值 (美元)", "Portfolio Value ($)"),
  ("backtest.chart.portfolio_value_xlabel", "日期", "Date"),
  ("backtest.sharpe_ratio", "夏普比率", "Sharpe Ratio"),
  ("backtest.max_drawdown", "最大回撤：{value}%", "Maximum Drawdown: {value}%"),
  ("backtest.max_drawdown_with_date", "最大回撤：{value}%（发生于 {date}）", "Maximum Drawdown: {value}% (on {date})"),
  ("backtest.win_rate", "胜率", "Win Rate"),
  ("backtest.win_loss_ratio", "盈亏比", "Win/Loss Ratio"),
  ("backtest.max_consecutive_wins", "最长连续盈利天数", "Max Consecutive Wins"),
  ("backtest.max_consecutive_losses", "最长连续亏损天数", "Max Consecutive Losses"),
  ("backtest.table.summary_heading", "投资组合汇总", "PORTFOLIO SUMMARY"),
  ("backtest.table.cash_balance", "现金余额", "Cash Balance"),
  ("backtest.table.position_value", "总持仓市值", "Total Position Value"),
  ("backtest.table.total_value", "资产总值", "Total Value"),
  ("backtest.table.return", "收益率", "Return"),
  ("backtest.table.sharpe_ratio", "夏普比率", "Sharpe Ratio"),
  ("backtest.table.sortino_ratio", "索提诺比率", "Sortino Ratio"),
  ("backtest.table.max_drawdown", "最大回撤", "Max Drawdown"),
  ("backtest.table.date", "日期", "Date"),
  ("backtest.table.ticker", "标的", "Ticker"),
  ("backtest.table.action", "操作", "Action"),
  ("backtest.table.quantity", "数量", "Quantity"),
  ("backtest.table.price", "价格", "Price"),
  ("backtest.table.long_shares", "多头持股", "Long Shares"),
  ("backtest.table.short_shares", "空头持股", "Short Shares"),
  ("backtest.table.position_value_column", "净持仓价值", "Position Value"),
  ("backtest.table.bullish", "看多", "Bullish"),
  ("backtest.table.bearish", "看空", "Bearish"),
  ("backtest.table.neutral", "中性", "Neutral"),
  ("cli.cannot_proceed_ollama", "无法继续：未检测到 Ollama 或所选模型。", "Cannot proceed without Ollama and the selected model."),
  ("cli.selected_model_generic", "\n已选择模型：{model}\n", "\nSelected model: {model}\n")]

/-- `TRANSLATIONS.get(key)`: dictionary lookup (keys are unique, so the first
match is the entry). -/
def lookupTranslation (key : String) : Option (String × String) :=
  (TRANSLATIONS.find? (fun e => e.1 == key)).map (·.2)

/-- `ACTION_TRANSLATIONS`. -/
def ACTION_TRANSLATIONS : List (String × String) :=
  [("BUY", "买入"), ("SELL", "卖出"), ("HOLD", "观望"), ("SHORT", "做空"),
   ("COVER", "回补")]

/-- Dictionary `.get(k, default)` on an association list. -/
def pyGetD (d : List (String × String)) (k dflt : String) : String :=
  ((d.find? (fun e => e.1 == k)).map (·.2)).getD dflt

/-- Keyword-argument lookup `kwargs[k]` (`none` = the name is not supplied). -/
def pyGet (kwargs : List (String × String)) (k : String) : Option String :=
  (kwargs.find? (fun e => e.1 == k)).map (·.2)

/-! ### `language.py`: `str.format` and `translate_text`

Python's `str.format(**kwargs)` substitutes `{name}` fields, turns `\x7b\x7b`
and `\x7d\x7d` into literal braces, raises `ValueError` on an unmatched brace
and `KeyError` when a referenced name is not supplied.  The scan is written
with a fuel argument (instantiated with the template length, an upper bound
on the number of steps) so that it is structural. -/

/-- Split a template at the first closing brace: the field name and the
remaining text, `none` when the brace is never closed. -/
def splitName : List Char → Option (List Char × List Char)
  | [] => none
  | c :: rest =>
    if c = '\x7d' then some ([], rest)
    else (splitName rest).map (fun p => (c :: p.1, p.2))

/-- The `str.format` scan.  Errors are `ValueError`/`KeyError` messages; the
fuel-exhaustion branch is unreachable for `fuel ≥ length`. -/
def formatFuel (kwargs : List (String × String)) :
    Nat → List Char → Except String (List Char)
  | _, [] => .ok []
  | 0, _ :: _ => .error "out of fuel"
  | f + 1, c :: rest =>
    if c = '\x7b' then
      match rest with
      | [] => .error "ValueError: expected closing brace"
      | r :: rest2 =>
        if r = '\x7b' then (formatFuel kwargs f rest2).map ('\x7b' :: ·)
        else
          match splitName (r :: rest2) with
          | none => .error "ValueError: expected closing brace"
          | some (name, tail) =>
            match pyGet kwargs ⟨name⟩ with
            | none => .error ("KeyError: " ++ ⟨name⟩)
            | some v => (formatFuel kwargs f tail).map (v.data ++ ·)
    else if c = '\x7d' then
      match rest with
      | [] => .error "ValueError: single closing brace"
      | r :: rest2 =>
        if r = '\x7d' then (formatFuel kwargs f rest2).map ('\x7d' :: ·)
        else .error "ValueError: single closing brace"
    else (formatFuel kwargs f rest).map (c :: ·)

/-- `template.format(**kwargs)`. -/
def pyFormat (template : String) (kwargs : List (String × String)) :
    Except String String :=
  (formatFuel kwargs template.data.length template.data).map (⟨·⟩)

/-- The names referenced by a template, `none` when the template is malformed;
the same scan as `formatFuel`, forgetting the substitution values. -/
def phsFuel : Nat → List Char → Option (List String)
  | _, [] => some []
  | 0, _ :: _ => none
  | f + 1, c :: rest =>
    if c = '\x7b' then
      match rest with
      | [] => none
      | r :: rest2 =>
        if r = '\x7b' then phsFuel f rest2
        else
          match splitName (r :: rest2) with
          | none => none
          | some (name, tail) => (phsFuel f tail).map (fun ns => (⟨name⟩ : String) :: ns)
    else if c = '\x7d' then
      match rest with
      | [] => none
      | r :: rest2 => if r = '\x7d' then phsFuel f rest2 else none
    else phsFuel f rest

/-- The placeholder names referenced by a template. -/
def placeholdersOf (template : String) : Option (List String) :=
  phsFuel template.data.length template.data

/-- `translate_text(key, language, fallback=None, **kwargs)`. -/
def translate_text (key : String) (language : Language)
    (fallback : Option String) (kwargs : List (String × String)) :
    Except String String :=
  match lookupTranslation key with
  | none =>
    let base := fallback.getD ""
    .ok (combine_translations base base language " / ")
  | some (zh_text, en_text) => do
    let formatted_zh ← pyFormat zh_text kwargs
    let formatted_en ← pyFormat en_text kwargs
    .ok (combine_translations formatted_zh formatted_en language " / ")

/-- `translate_action(action, language)`. -/
def translate_action (action : String) (language : Language) : String :=
  let action_upper := pyUpper action
  let zh := pyGetD ACTION_TRANSLATIONS action_upper action_upper
  combine_translations zh action_upper language " / "

/-! ### `display.py`: the greedy word-wrap loop

The same eleven-line loop appears verbatim at `display.py` lines 84–94,
145–155 and 245–255 inside `print_trading_output`; it is embedded once.
`pySplit` is Python's argumentless `str.split()` (split on whitespace runs,
discarding empties); `wrapAux` is the loop, with `wrapped` and `cur`
accumulating `wrapped_reasoning` and `current_line`. -/

/-- `str.split()` worker; `cur` holds the current word, reversed. -/
def pySplitAux (cur : List Char) : List Char → List (List Char)
  | [] => if cur.isEmpty then [] else [cur.reverse]
  | c :: cs =>
    if c.isWhitespace then
      if cur.isEmpty then pySplitAux [] cs else cur.reverse :: pySplitAux [] cs
    else pySplitAux (c :: cur) cs

/-- Python `s.split()`. -/
def pySplit (l : List Char) : List (List Char) := pySplitAux [] l

/-- The wrap loop over the word list.  The flush condition is
`len(current_line) + len(word) + 1 > 60`, with no emptiness guard; the final
`if current_line:` append is the `[]` case. -/
def wrapAux (wrapped cur : List Char) : List (List Char) → List Char
  | [] => if cur.isEmpty then wrapped else wrapped ++ cur
  | w :: ws =>
    if 60 < cur.length + w.length + 1 then
      wrapAux (wrapped ++ cur ++ ['\n']) w ws
    else if cur.isEmpty then wrapAux wrapped w ws
    else wrapAux wrapped (cur ++ ' ' :: w) ws

/-- The wrap transformation applied to a reasoning string. -/
def wrapText (s : String) : String := ⟨wrapAux [] [] (pySplit s.data)⟩

/-- Python `s.split(sep)` for a single-character separator (empties kept). -/
def splitOnChar (sep : Char) : List Char → List (List Char)
  | [] => [[]]
  | c :: cs =>
    if c = sep then [] :: splitOnChar sep cs
    else
      match splitOnChar sep cs with
      | [] => [[c]]
      | head :: tail => (c :: head) :: tail

/-- The visual lines of a rendered multi-line string. -/
def linesOf (s : String) : List (List Char) := splitOnChar '\n' s.data

/-- Python `s.split(sep)[0]` for a non-empty separator: the prefix before the
first occurrence of `sep` (all of `s` when `sep` does not occur). -/
def takeBeforeSeq (sep : List Char) : List Char → List Char
  | [] => []
  | c :: cs => if sep.isPrefixOf (c :: cs) then [] else c :: takeBeforeSeq sep cs

/-! ### Python numeric formatting (`:,.2f`, `:.2f`, `:,.0f`, `:+.2f`)

Monetary amounts and ratios are modelled as exact integers scaled by 100
("cents"), so the two-decimal renderings are exact.  The decimal-digit
expansion is written with a fuel argument (the number itself bounds the

number of divisions) so that it is structural and kernel-executable. -/

/-- The character of a decimal digit. -/
def digitChar (d : Nat) : Char :=
  match d with
  | 0 => '0' | 1 => '1' | 2 => '2' | 3 => '3' | 4 => '4'
  | 5 => '5' | 6 => '6' | 7 => '7' | 8 => '8' | _ => '9'

/-- Little-endian digits of `n`, fuelled (fuel `n` suffices); `[]` for `0`. -/
def natDigitsRev : Nat → Nat → List Char
  | 0, _ => []
  | f + 1, n => if n = 0 then [] else digitChar (n % 10) :: natDigitsRev f (n / 10)

/-- Bare decimal rendering of `n` (big-endian, `"0"` for zero). -/
def natToDigits (n : Nat) : List Char :=
  if n = 0 then ['0'] else (natDigitsRev n n).reverse

/-- Insert a `','` after every third character (the input is the reversed
digit string, so grouping is from the least significant digit). -/
def group3 : List Char → List Char
  | a :: b :: c :: d :: rest => a :: b :: c :: ',' :: group3 (d :: rest)
  | l => l

/-- Thousands-grouped decimal rendering of `n` (Python `f"{n:,}"`). -/
def commaGroup (n : Nat) : List Char := (group3 (natToDigits n).reverse).reverse

/-- Two-digit zero-padded rendering of `m < 100` (the fractional part). -/
def twoDigits (m : Nat) : List Char := [digitChar (m / 10 % 10), digitChar (m % 10)]

/-- Python `f"{v:,.2f}"` on the exact value `cents / 100`. -/
def commaFmt2 (cents : Int) : String :=
  (if cents < 0 then "-" else "") ++
    (⟨commaGroup (cents.natAbs / 100)⟩ : String) ++ "." ++ ⟨twoDigits (cents.natAbs % 100)⟩

/-- Python `f"{v:.2f}"` (no grouping) on the exact value `cents / 100`. -/
def fmt2 (cents : Int) : String :=
  (if cents < 0 then "-" else "") ++
    (⟨natToDigits (cents.natAbs / 100)⟩ : String) ++ "." ++ ⟨twoDigits (cents.natAbs % 100)⟩

/-- Python `f"{v:+.2f}"` (explicit sign) on the exact value `cents / 100`. -/
def fmtPlus2 (cents : Int) : String :=
  (if cents < 0 then "-" else "+") ++
    (⟨natToDigits (cents.natAbs / 100)⟩ : String) ++ "." ++ ⟨twoDigits (cents.natAbs % 100)⟩

/-- Python `f"{v:,.0f}"` on the exact integer `v`. -/
def commaFmt0 (v : Int) : String :=
  (if v < 0 then "-" else "") ++ (⟨commaGroup v.natAbs⟩ : String)

/-- Decimal-digit test (`'0'` to `'9'`). -/
def isDigitCh (c : Char) : Bool := 48 ≤ c.toNat && c.toNat ≤ 57

/-- Parse an unsigned decimal digit string (the integer such strings denote);
`none` on the empty string or a non-digit. -/
def parseNat (l : List Char) : Option Nat :=
  if l = [] then none
  else if l.all isDigitCh then some (l.foldl (fun a c => a * 10 + (c.toNat - 48)) 0)
  else none

/-- `float(s)` restricted to the decimal strings this rendering path produces
(optional sign, digits, optional two-digit fraction), returning the value in
cents. -/
def parseCents (l : List Char) : Option Int :=
  match l with
  | [] => none
  | c :: rest =>
    if c = '-' then (parseCentsNat rest).map (fun n => -(n : Int))
    else (parseCentsNat (c :: rest)).map (fun n => (n : Int))
where
  parseCentsNat (l : List Char) : Option Nat :=
    match splitOnChar '.' l with
    | [i] => (parseNat i).map (· * 100)
    | [i, fr] =>
      if fr.length = 2 then
        match parseNat i, parseNat fr with
        | some a, some b => some (a * 100 + b)
        | _, _ => none
      else none
    | _ => none

/-- The running value of a big-endian digit string. -/
def digitsVal (l : List Char) : Nat := l.foldl (fun a c => a * 10 + (c.toNat - 48)) 0

/-- The summary-extraction chain of `print_backtest_results`:
`field.split("$")[1].split(Style.RESET_ALL)[0].replace(",", "")`
(the out-of-range index of Python's `[1]` is modelled by `getD`; the caller
contract guarantees a `'$'` is present). -/
def extractMoney (field : String) : List Char :=
  (takeBeforeSeq styleRESET.data ((splitOnChar '$' field.data).getD 1 [])).filter
    (· ≠ ',')

/-! ### `display.py`: backtest rows

`format_backtest_row` builds a 14-field summary row or an 11-field per-trade
row of pre-colorized strings; `print_backtest_results` classifies rows by the
substring test on the second column and re-parses the currency fields of the
latest summary row.  The `sharpe_ratio` / `sortino_ratio` parameters are
named `sharpe` / `sortino` here; all money/ratio inputs are cents
(`none` models Python `None`, and `x or 0` is `Option.getD x 0`). -/

/-- Python `str(v)` for an integer. -/
def intStr (v : Int) : String :=
  (if v < 0 then "-" else "") ++ (⟨natToDigits v.natAbs⟩ : String)

/-- The action-to-color dict of `format_backtest_row` (`.get(..., Fore.WHITE)`). -/
def actionColor (action : String) : String :=
  pyGetD
    [("BUY", foreGREEN), ("COVER", foreGREEN), ("SELL", foreRED),
     ("SHORT", foreRED), ("HOLD", foreWHITE)]
    (pyUpper action) foreWHITE

/-- The localized summary heading used by both `format_backtest_row` and
`print_backtest_results`:
`translate_text("backtest.table.summary_heading", language, "PORTFOLIO SUMMARY")`.
The templates contain no placeholders, so formatting cannot fail; the error
branch is unreachable. -/
def summaryHeadingStr (language : Language) : String :=
  match translate_text "backtest.table.summary_heading" language
      (some "PORTFOLIO SUMMARY") [] with
  | .ok s => s
  | .error _ => ""

/-- `format_backtest_row(...)`. -/
def format_backtest_row (date ticker action : String)
    (quantity price long_shares short_shares position_value : Int)
    (bullish_count bearish_count neutral_count : Int)
    (is_summary : Bool)
    (total_value return_pct cash_balance total_position_value : Option Int)
    (sharpe sortino max_drawdown : Option Int)
    (language : Language) : List String :=
  let action_color := actionColor action
  if is_summary then
    let summary_heading := summaryHeadingStr language
    let return_color := if 0 ≤ return_pct.getD 0 then foreGREEN else foreRED
    [date,
     foreWHITE ++ styleBRIGHT ++ summary_heading ++ styleRESET,
     "",  -- Action
     "",  -- Quantity
     "",  -- Price
     "",  -- Long Shares
     "",  -- Short Shares
     foreYELLOW ++ "$" ++ commaFmt2 (total_position_value.getD 0) ++ styleRESET,
     foreCYAN ++ "$" ++ commaFmt2 (cash_balance.getD 0) ++ styleRESET,
     foreWHITE ++ "$" ++ commaFmt2 (total_value.getD 0) ++ styleRESET,
     return_color ++ fmtPlus2 (return_pct.getD 0) ++ "%" ++ styleRESET,
     -- the source formats `(x or 0)` under an `is not None` guard; for a
     -- present value `x or 0` equals `x` (a float zero is replaced by the
     -- numerically equal int 0), so the guarded branches render `v` directly
     (match sharpe with
      | some v => foreYELLOW ++ fmt2 v ++ styleRESET
      | none => ""),
     (match sortino with
      | some v => foreYELLOW ++ fmt2 v ++ styleRESET
      | none => ""),
     (match max_drawdown with
      | some v => foreRED ++ fmt2 ((v.natAbs : Int)) ++ "%" ++ styleRESET
      | none => "")]
  else
    let localized_action := translate_action (pyUpper action) language
    [date,
     foreCYAN ++ ticker ++ styleRESET,
     action_color ++ localized_action ++ styleRESET,
     action_color ++ commaFmt0 quantity ++ styleRESET,
     foreWHITE ++ "$" ++ commaFmt2 price ++ styleRESET,
     foreGREEN ++ commaFmt0 long_shares ++ styleRESET,
     foreRED ++ commaFmt0 short_shares ++ styleRESET,
     foreYELLOW ++ "$" ++ commaFmt2 position_value ++ styleRESET,
     foreGREEN ++ intStr bullish_count ++ styleRESET,
     foreRED ++ intStr bearish_count ++ styleRESET,
     foreBLUE ++ intStr neutral_count ++ styleRESET]

/-- The row classification of `print_backtest_results`:
`isinstance(row[1], str) and summary_heading in row[1]` (fields are always
strings in this embedding, so only the substring test remains). -/
def isSummaryRow (summary_heading : String) (row : List String) : Bool :=
  pyContains (row.getD 1 "") summary_heading

/-- The classification loop of `print_backtest_results`: split the rows into
`(ticker_rows, summary_rows)`, preserving order. -/
def split_backtest_rows (summary_heading : String) :
    List (List String) → List (List String) × List (List String)
  | [] => ([], [])
  | row :: rest =>
    let p := split_backtest_rows summary_heading rest
    if isSummaryRow summary_heading row then (p.1, row :: p.2)
    else (row :: p.1, p.2)

/-- The shipped `TRANSLATIONS` table is placeholder-symmetric: every entry's
two templates are well-formed and reference the same placeholder names. -/
def placeholderSymCheck : Bool :=
  TRANSLATIONS.all (fun e =>
    match placeholdersOf e.2.1, placeholdersOf e.2.2 with
    | some zs, some es =>
      zs.all (fun n => es.contains n) && es.all (fun n => zs.contains n)
    | _, _ => false)

/-! #### `str.format` succeeds exactly when every referenced name is supplied -/

theorem exists_ok_map {ε α β : Type} (g : α → β) (e : Except ε α) :
    (∃ r, e.map g = .ok r) ↔ ∃ r, e = .ok r := by
  cases e <;> simp [Except.map]

theorem formatFuel_ok_iff (kwargs : List (String × String)) :
    ∀ (f : Nat) (l : List Char),
      (∃ r, formatFuel kwargs f l = .ok r) ↔
        (∃ ns, phsFuel f l = some ns ∧ ∀ n ∈ ns, (pyGet kwargs n).isSome = true) := by
  intro f
  induction f with
  | zero =>
    intro l
    cases l with
    | nil => simp [formatFuel, phsFuel]
    | cons c rest => simp [formatFuel, phsFuel]
  | succ f ih =>
    intro l
    cases l with
    | nil => simp [formatFuel, phsFuel]
    | cons c rest =>
      by_cases hb : c = '\x7b'
      · subst hb
        cases rest with
        | nil => simp [formatFuel, phsFuel]
        | cons r rest2 =>
          by_cases hr : r = '\x7b'
          · subst hr
            rw [show formatFuel kwargs (f + 1) ('\x7b' :: '\x7b' :: rest2) =
                  (formatFuel kwargs f rest2).map ('\x7b' :: ·) by simp [formatFuel],
                show phsFuel (f + 1) ('\x7b' :: '\x7b' :: rest2) = phsFuel f rest2 by
                  simp [phsFuel],
                exists_ok_map]
            exact ih rest2
          · rcases hsn : splitName (r :: rest2) with _ | ⟨name, tail⟩
            · simp [formatFuel, phsFuel, hr, hsn]
            · rcases hk : pyGet kwargs ⟨name⟩ with _ | v
              · rw [show formatFuel kwargs (f + 1) ('\x7b' :: r :: rest2) =
                      .error ("KeyError: " ++ (⟨name⟩ : String)) by
                        simp [formatFuel, hr, hsn, hk],
                    show phsFuel (f + 1) ('\x7b' :: r :: rest2) =
                      (phsFuel f tail).map ((⟨name⟩ : String) :: ·) by
                        simp [phsFuel, hr, hsn]]
                constructor
                · rintro ⟨res, hres⟩; exact absurd hres (by simp)
                · rintro ⟨ns, hns, hall⟩
                  rcases Option.map_eq_some'.mp hns with ⟨ns', _, rfl⟩
                  have := hall ⟨name⟩ (by simp)
                  simp [hk] at this
              · rw [show formatFuel kwargs (f + 1) ('\x7b' :: r :: rest2) =
                      (formatFuel kwargs f tail).map (v.data ++ ·) by
                        simp [formatFuel, hr, hsn, hk],
                    show phsFuel (f + 1) ('\x7b' :: r :: rest2) =
                      (phsFuel f tail).map ((⟨name⟩ : String) :: ·) by
                        simp [phsFuel, hr, hsn],
                    exists_ok_map, ih tail]
                constructor
                · rintro ⟨ns, hns, hall⟩
                  refine ⟨⟨name⟩ :: ns, by simp [hns], ?_⟩
                  intro n hn
                  rcases List.mem_cons.mp hn with rfl | hn
                  · simp [hk]
                  · exact hall n hn
                · rintro ⟨ns, hns, hall⟩
                  rcases Option.map_eq_some'.mp hns with ⟨ns', hns', rfl⟩
                  exact ⟨ns', hns', fun n hn => hall n (List.mem_cons_of_mem _ hn)⟩
      · by_cases hc : c = '\x7d'
        · subst hc
          cases rest with
          | nil => simp [formatFuel, phsFuel]
          | cons r rest2 =>
            by_cases hr : r = '\x7d'
            · subst hr
              rw [show formatFuel kwargs (f + 1) ('\x7d' :: '\x7d' :: rest2) =
                    (formatFuel kwargs f rest2).map ('\x7d' :: ·) by simp [formatFuel],
                  show phsFuel (f + 1) ('\x7d' :: '\x7d' :: rest2) = phsFuel f rest2 by
                    simp [phsFuel],
                  exists_ok_map]
              exact ih rest2
            · simp [formatFuel, phsFuel, hr]
        · rw [show formatFuel kwargs (f + 1) (c :: rest) =
                (formatFuel kwargs f rest).map (c :: ·) by simp [formatFuel, hb, hc],
              show phsFuel (f + 1) (c :: rest) = phsFuel f rest by simp [phsFuel, hb, hc],
              exists_ok_map]
          exact ih rest

/-! #### Wrap-loop lemmas -/

/-- The `wrapped` accumulator only ever receives appends. -/
theorem wrapAux_acc (ws : List (List Char)) :
    ∀ (a cur : List Char), wrapAux a cur ws = a ++ wrapAux [] cur ws := by
  induction ws with
  | nil =>
    intro a cur
    by_cases h : cur.isEmpty <;> simp [wrapAux, h]
  | cons w ws ih =>
    intro a cur
    by_cases h1 : 60 < cur.length + w.length + 1
    · rw [wrapAux, if_pos h1, wrapAux, if_pos h1, ih, ih (([] : List Char) ++ cur ++ ['\n'])]
      simp
    · by_cases h2 : cur.isEmpty
      · rw [wrapAux, if_neg h1, if_pos h2, wrapAux, if_neg h1, if_pos h2]
        exact ih a w
      · rw [wrapAux, if_neg h1, if_neg h2, wrapAux, if_neg h1, if_neg h2]
        exact ih a (cur ++ ' ' :: w)

/-- Splitting on whitespace distributes over a whitespace separator. -/
theorem pySplitAux_append_ws {c : Char} (hc : c.isWhitespace = true) (b : List Char) :
    ∀ (a cur : List Char),
      pySplitAux cur (a ++ c :: b) = pySplitAux cur a ++ pySplitAux [] b := by
  intro a
  induction a with
  | nil =>
    intro cur
    by_cases h : cur.isEmpty <;>
      simp [pySplitAux, hc, h]
  | cons x a ih =>
    intro cur
    by_cases hx : x.isWhitespace
    · by_cases h : cur.isEmpty <;>
        simp [pySplitAux, hx, h, ih]
    · simp [pySplitAux, hx, ih]

theorem pySplit_append_ws {c : Char} (hc : c.isWhitespace = true)
    (a b : List Char) : pySplit (a ++ c :: b) = pySplit a ++ pySplit b :=
  pySplitAux_append_ws hc b a []

/-- Splitting a chunk with no whitespace yields the chunk. -/
theorem pySplitAux_no_ws :
    ∀ (a cur : List Char), (∀ x ∈ a, x.isWhitespace = false) →
      pySplitAux cur a =
        if (cur.reverse ++ a).isEmpty then [] else [cur.reverse ++ a] := by
  intro a
  induction a with
  | nil =>
    intro cur _
    simp [pySplitAux]
  | cons x a ih =>
    intro cur hx
    have hxw : x.isWhitespace = false := hx x (by simp)
    rw [pySplitAux, if_neg (by simp [hxw]), ih _ (fun y hy => hx y (by simp [hy]))]
    simp

theorem pySplit_single_word (w : List Char) (hw : w ≠ [])
    (hnw : ∀ x ∈ w, x.isWhitespace = false) : pySplit w = [w] := by
  rw [pySplit, pySplitAux_no_ws w [] hnw]
  simp [hw]

/-- Every word produced by `str.split()` is non-empty and whitespace-free. -/
theorem pySplitAux_words_good :
    ∀ (l cur : List Char), (∀ x ∈ cur, x.isWhitespace = false) →
      ∀ w ∈ pySplitAux cur l, w ≠ [] ∧ ∀ x ∈ w, x.isWhitespace = false := by
  intro l
  induction l with
  | nil =>
    intro cur hcur w hw
    by_cases h : cur.isEmpty
    · simp [pySplitAux, h] at hw
    · simp [pySplitAux, h] at hw
      subst hw
      have hne : cur ≠ [] := by simpa [List.isEmpty_iff] using h
      refine ⟨by simpa using hne, ?_⟩
      intro x hx
      exact hcur x (by simpa using hx)
  | cons c cs ih =>
    intro cur hcur w hw
    by_cases hc : c.isWhitespace
    · by_cases h : cur.isEmpty
      · rw [pySplitAux, if_pos hc, if_pos h] at hw
        exact ih [] (by simp) w hw
      · rw [pySplitAux, if_pos hc, if_neg h] at hw
        rcases List.mem_cons.mp hw with rfl | hw
        · have hne : cur ≠ [] := by simpa [List.isEmpty_iff] using h
          refine ⟨by simpa using hne, ?_⟩
          intro x hx
          exact hcur x (by simpa using hx)
        · exact ih [] (by simp) w hw
    · rw [pySplitAux, if_neg (by simp [hc])] at hw
      refine ih (c :: cur) ?_ w hw
      intro x hx
      rcases List.mem_cons.mp hx with rfl | hx
      · simpa using hc
      · exact hcur x hx

theorem pySplit_words_good (l : List Char) :
    ∀ w ∈ pySplit l, w ≠ [] ∧ ∀ x ∈ w, x.isWhitespace = false :=
  pySplitAux_words_good l [] (by simp)

/-- Splitting the wrapped output recovers exactly the word sequence: the wrap
loop only ever re-joins the words with single spaces and newlines. -/
theorem pySplit_wrapAux :
    ∀ (ws : List (List Char)) (cur : List Char),
      (∀ w ∈ ws, w ≠ [] ∧ ∀ x ∈ w, x.isWhitespace = false) →
      pySplit (wrapAux [] cur ws) = pySplit cur ++ ws := by
  intro ws
  induction ws with
  | nil =>
    intro cur _
    by_cases h : cur.isEmpty
    · rw [wrapAux, if_pos h]
      have : cur = [] := by simpa [List.isEmpty_iff] using h
      simp [this]
    · rw [wrapAux, if_neg h]
      simp
  | cons w ws ih =>
    intro cur hws
    have hw := hws w (by simp)
    have hws' : ∀ w' ∈ ws, w' ≠ [] ∧ ∀ x ∈ w', x.isWhitespace = false :=
      fun w' hw' => hws w' (by simp [hw'])
    by_cases h1 : 60 < cur.length + w.length + 1
    · rw [wrapAux, if_pos h1, wrapAux_acc]
      have : ([] : List Char) ++ cur ++ ['\n'] ++ wrapAux [] w ws =
          cur ++ '\n' :: wrapAux [] w ws := by simp
      rw [this, pySplit_append_ws (by decide), ih w hws', pySplit_single_word w hw.1 hw.2]
      simp
    · by_cases h2 : cur.isEmpty
      · rw [wrapAux, if_neg h1, if_pos h2, ih w hws', pySplit_single_word w hw.1 hw.2]
        have : cur = [] := by simpa [List.isEmpty_iff] using h2
        simp [this, pySplit, pySplitAux]
      · rw [wrapAux, if_neg h1, if_neg h2, ih (cur ++ ' ' :: w) hws',
          pySplit_append_ws (by decide), pySplit_single_word w hw.1 hw.2]
        simp

/-- Re-splitting wrapped text gives back the original words. -/
theorem pySplit_wrapText (s : String) :
    pySplit (wrapText s).data = pySplit s.data := by
  rw [wrapText]
  show pySplit (wrapAux [] [] (pySplit s.data)) = pySplit s.data
  rw [pySplit_wrapAux (pySplit s.data) [] (pySplit_words_good s.data)]
  simp [pySplit, pySplitAux]

/-! #### `splitOnChar` lemmas -/

theorem splitOnChar_ne_nil (sep : Char) (l : List Char) :
    splitOnChar sep l ≠ [] := by
  induction l with
  | nil => simp [splitOnChar]
  | cons c cs ih =>
    by_cases h : c = sep
    · simp [splitOnChar, h]
    · rw [splitOnChar, if_neg h]
      rcases hs : splitOnChar sep cs with _ | ⟨head, tail⟩
      · simp
      · simp

/-- No separator: Python `split` returns the whole string. -/
theorem splitOnChar_not_mem {sep : Char} :
    ∀ {l : List Char}, sep ∉ l → splitOnChar sep l = [l] := by
  intro l
  induction l with
  | nil => intro _; rfl
  | cons c cs ih =>
    intro h
    have hc : c ≠ sep := fun hc => h (by simp [hc])
    have hcs : sep ∉ cs := fun hm => h (by simp [hm])
    rw [splitOnChar, if_neg hc, ih hcs]

/-- A separator after a separator-free chunk splits the chunk off. -/
theorem splitOnChar_append {sep : Char} :
    ∀ {a : List Char}, sep ∉ a → ∀ (b : List Char),
      splitOnChar sep (a ++ sep :: b) = a :: splitOnChar sep b := by
  intro a
  induction a with
  | nil => intro _ b; simp [splitOnChar]
  | cons x a ih =>
    intro h b
    have hx : x ≠ sep := fun hx => h (by simp [hx])
    have ha : sep ∉ a := fun hm => h (by simp [hm])
    rw [List.cons_append, splitOnChar, if_neg hx, ih ha b]

/-! #### Lines of the wrapped output -/

/-- Every line flushed by the loop is the current line at flush time: a line
is either at most 60 characters long, or is a single over-long word. -/
theorem wrapAux_lines :
    ∀ (ws : List (List Char)) (cur : List Char),
      '\n' ∉ cur →
      (cur.length ≤ 60 ∨ ∀ x ∈ cur, x.isWhitespace = false) →
      (∀ w ∈ ws, w ≠ [] ∧ ∀ x ∈ w, x.isWhitespace = false) →
      ∀ line ∈ splitOnChar '\n' (wrapAux [] cur ws),
        line.length ≤ 60 ∨ (60 < line.length ∧ ∀ x ∈ line, x.isWhitespace = false) := by
  intro ws
  induction ws with
  | nil =>
    intro cur hn hinv _ line hline
    rw [wrapAux] at hline
    by_cases h : cur.isEmpty
    · rw [if_pos h] at hline
      simp [splitOnChar] at hline
      subst hline
      left; simp
    · rw [if_neg h] at hline
      rw [List.nil_append, splitOnChar_not_mem hn] at hline
      simp at hline
      subst hline
      rcases hinv with h60 | hw
      · left; exact h60
      · by_cases hle : line.length ≤ 60
        · left; exact hle
        · right; exact ⟨by omega, hw⟩
  | cons w ws ih =>
    intro cur hn hinv hws line hline
    have hw := hws w (by simp)
    have hwn : '\n' ∉ w := fun hm => by simpa using hw.2 '\n' hm
    have hws' : ∀ w' ∈ ws, w' ≠ [] ∧ ∀ x ∈ w', x.isWhitespace = false :=
      fun w' hw' => hws w' (by simp [hw'])
    by_cases h1 : 60 < cur.length + w.length + 1
    · rw [wrapAux, if_pos h1, wrapAux_acc] at hline
      have heq : ([] : List Char) ++ cur ++ ['\n'] ++ wrapAux [] w ws =
          cur ++ '\n' :: wrapAux [] w ws := by simp
      rw [heq, splitOnChar_append hn] at hline
      rcases List.mem_cons.mp hline with rfl | hline
      · rcases hinv with h60 | hwf
        · left; exact h60
        · by_cases hle : line.length ≤ 60
          · left; exact hle
          · right; exact ⟨by omega, hwf⟩
      · exact ih w hwn (Or.inr hw.2) hws' line hline
    · by_cases h2 : cur.isEmpty
      · rw [wrapAux, if_neg h1, if_pos h2] at hline
        exact ih w hwn (Or.inr hw.2) hws' line hline
      · rw [wrapAux, if_neg h1, if_neg h2] at hline
        refine ih (cur ++ ' ' :: w) ?_ (Or.inl ?_) hws' line hline
        · intro hm
          rcases List.mem_append.mp hm with hm | hm
          · exact hn hm
          · rcases List.mem_cons.mp hm with hm | hm
            · exact absurd hm.symm (by decide)
            · simpa using hw.2 '\n' hm
        · simp only [List.length_append, List.length_cons]
          omega

/-- After the first word, the current line is never empty, so no later flush
can emit an empty line. -/
theorem wrapAux_no_empty_line :
    ∀ (ws : List (List Char)) (cur : List Char),
      cur ≠ [] → '\n' ∉ cur →
      (∀ w ∈ ws, w ≠ [] ∧ '\n' ∉ w) →
      [] ∉ splitOnChar '\n' (wrapAux [] cur ws) := by
  intro ws
  induction ws with
  | nil =>
    intro cur hne hn _ hmem
    rw [wrapAux, if_neg (by simpa [List.isEmpty_iff] using hne)] at hmem
    rw [List.nil_append, splitOnChar_not_mem hn] at hmem
    simp at hmem
    exact hne hmem
  | cons w ws ih =>
    intro cur hne hn hws hmem
    have hw := hws w (by simp)
    have hws' : ∀ w' ∈ ws, w' ≠ [] ∧ '\n' ∉ w' := fun w' hw' => hws w' (by simp [hw'])
    by_cases h1 : 60 < cur.length + w.length + 1
    · rw [wrapAux, if_pos h1, wrapAux_acc] at hmem
      have heq : ([] : List Char) ++ cur ++ ['\n'] ++ wrapAux [] w ws =
          cur ++ '\n' :: wrapAux [] w ws := by simp
      rw [heq, splitOnChar_append hn] at hmem
      rcases List.mem_cons.mp hmem with h | h
      · exact hne h.symm
      · exact ih w hw.1 hw.2 hws' h
    · by_cases h2 : cur.isEmpty
      · exact absurd (by simpa [List.isEmpty_iff] using h2) hne
      · rw [wrapAux, if_neg h1, if_neg h2] at hmem
        refine ih (cur ++ ' ' :: w) (by simp) ?_ hws' hmem
        intro hm
        rcases List.mem_append.mp hm with hm | hm
        · exact hn hm
        · rcases List.mem_cons.mp hm with hm | hm
          · exact absurd hm.symm (by decide)
          · exact hw.2 hm

/-! #### Digit-string lemmas: parsing is a left inverse of rendering -/

theorem digitChar_isDigit (d : Nat) : isDigitCh (digitChar d) = true := by
  unfold digitChar
  split <;> decide

theorem digitChar_val {d : Nat} (h : d < 10) : (digitChar d).toNat - 48 = d := by
  interval_cases d <;> decide

theorem digitsVal_append_singleton (l : List Char) (c : Char) :
    digitsVal (l ++ [c]) = digitsVal l * 10 + (c.toNat - 48) := by
  simp [digitsVal]

theorem natDigitsRev_val :
    ∀ (f n : Nat), n ≤ f → digitsVal (natDigitsRev f n).reverse = n := by
  intro f
  induction f with
  | zero =>
    intro n hn
    interval_cases n
    simp [natDigitsRev, digitsVal]
  | succ f ih =>
    intro n hn
    by_cases h0 : n = 0
    · simp [natDigitsRev, h0, digitsVal]
    · rw [natDigitsRev, if_neg h0, List.reverse_cons, digitsVal_append_singleton,
        ih (n / 10) (by omega), digitChar_val (Nat.mod_lt n (by omega))]
      omega

theorem natDigitsRev_all_digits (f n : Nat) :
    ∀ c ∈ natDigitsRev f n, isDigitCh c = true := by
  induction f generalizing n with
  | zero => simp [natDigitsRev]
  | succ f ih =>
    by_cases h0 : n = 0
    · simp [natDigitsRev, h0]
    · rw [natDigitsRev, if_neg h0]
      intro c hc
      rcases List.mem_cons.mp hc with rfl | hc
      · exact digitChar_isDigit _
      · exact ih _ c hc

theorem natToDigits_ne_nil (n : Nat) : natToDigits n ≠ [] := by
  by_cases h0 : n = 0
  · simp [natToDigits, h0]
  · rw [natToDigits, if_neg h0]
    rcases Nat.exists_eq_succ_of_ne_zero h0 with ⟨m, rfl⟩
    rw [natDigitsRev, if_neg h0]
    simp

theorem natToDigits_all_digits (n : Nat) :
    ∀ c ∈ natToDigits n, isDigitCh c = true := by
  by_cases h0 : n = 0
  · simp [natToDigits, h0]; decide
  · rw [natToDigits, if_neg h0]
    intro c hc
    exact natDigitsRev_all_digits n n c (by simpa using hc)

theorem parseNat_natToDigits (n : Nat) : parseNat (natToDigits n) = some n := by
  rw [parseNat, if_neg (natToDigits_ne_nil n),
    if_pos (by rw [List.all_eq_true]; intro c hc; exact natToDigits_all_digits n c hc)]
  by_cases h0 : n = 0
  · simp [natToDigits, h0]
  · rw [natToDigits, if_neg h0]
    exact congrArg some (natDigitsRev_val n n le_rfl)

theorem parseNat_twoDigits {m : Nat} (h : m < 100) :
    parseNat (twoDigits m) = some m := by
  have h1 : m / 10 % 10 < 10 := Nat.mod_lt _ (by omega)
  have h2 : m % 10 < 10 := Nat.mod_lt _ (by omega)
  rw [twoDigits, parseNat,
    if_neg (by simp),
    if_pos (by simp [digitChar_isDigit])]
  show some (digitsVal _) = some m
  rw [show [digitChar (m / 10 % 10), digitChar (m % 10)] =
    [digitChar (m / 10 % 10)] ++ [digitChar (m % 10)] from rfl]
  rw [digitsVal_append_singleton, digitChar_val h2]
  have : digitsVal [digitChar (m / 10 % 10)] = m / 10 % 10 := by
    show 0 * 10 + ((digitChar (m / 10 % 10)).toNat - 48) = m / 10 % 10
    rw [digitChar_val h1]
    omega
  rw [this]
  have : m / 10 % 10 = m / 10 := Nat.mod_eq_of_lt (by omega)
  rw [this]
  congr 1
  omega

/-- All characters of a group are characters of the input or commas. -/
theorem group3_mem : ∀ (l : List Char), ∀ c ∈ group3 l, c ∈ l ∨ c = ',' := by
  intro l
  induction l using group3.induct with
  | case1 a b c d rest ih =>
    intro x hx
    rw [group3] at hx
    rcases List.mem_cons.mp hx with rfl | hx
    · left; simp
    · rcases List.mem_cons.mp hx with rfl | hx
      · left; simp
      · rcases List.mem_cons.mp hx with rfl | hx
        · left; simp
        · rcases List.mem_cons.mp hx with rfl | hx
          · right; rfl
          · rcases ih x hx with h | h
            · left
              rcases List.mem_cons.mp h with rfl | h
              · simp
              · simp [h]
            · right; exact h
  | case2 l h2 =>
    intro x hx
    rw [group3] at hx
    · left; exact hx
    · exact h2

/-- Removing the inserted commas recovers the digit string. -/
theorem group3_filter :
    ∀ (l : List Char), ',' ∉ l → (group3 l).filter (· ≠ ',') = l := by
  intro l
  induction l using group3.induct with
  | case1 a b c d rest ih =>
    intro h
    rw [group3]
    have ha : a ≠ ',' := fun hc => h (by simp [hc])
    have hb : b ≠ ',' := fun hc => h (by simp [hc])
    have hcc : c ≠ ',' := fun hc => h (by simp [hc])
    have hrest : ',' ∉ d :: rest := fun hc => h (by simp; tauto)
    have key := ih hrest
    simp only [ne_eq, decide_not] at key ⊢
    simp [ha, hb, hcc, key]
  | case2 l h2 =>
    intro h
    rw [group3]
    · rw [List.filter_eq_self]
      intro c hc
      simp only [decide_not, Bool.not_eq_true', decide_eq_false_iff_not]
      exact fun hcc => h (hcc ▸ hc)
    · exact h2

theorem commaGroup_filter (n : Nat) :
    (commaGroup n).filter (· ≠ ',') = natToDigits n := by
  have hnc : ',' ∉ (natToDigits n).reverse := by
    intro h
    have := natToDigits_all_digits n ',' (by simpa using h)
    simp [isDigitCh] at this
  rw [commaGroup, List.filter_reverse, group3_filter _ hnc, List.reverse_reverse]

theorem commaGroup_mem (n : Nat) :
    ∀ c ∈ commaGroup n, isDigitCh c = true ∨ c = ',' := by
  intro c hc
  rw [commaGroup] at hc
  rcases group3_mem _ c (by simpa using hc) with h | h
  · exact Or.inl (natToDigits_all_digits n c (by simpa using h))
  · exact Or.inr h

/-! #### `takeBeforeSeq` and money extraction -/

theorem takeBeforeSeq_append {h : Char} (t : List Char) :
    ∀ (m : List Char), h ∉ m → takeBeforeSeq (h :: t) (m ++ h :: t) = m := by
  intro m
  induction m with
  | nil =>
    intro _
    rw [List.nil_append, takeBeforeSeq, if_pos]
    simp
  | cons x m ih =>
    intro hm
    have hx : x ≠ h := fun hx => hm (by simp [hx])
    have hm' : h ∉ m := fun hmm => hm (by simp [hmm])
    rw [List.cons_append, takeBeforeSeq, if_neg, ih hm']
    intro hp
    have := List.isPrefixOf_iff_prefix.mp hp
    rcases this with ⟨s, hs⟩
    rw [List.cons_append] at hs
    exact hx (List.cons.injEq .. ▸ hs).1.symm

/-- The characters of a rendered `:,.2f` money string: digits, commas, a dot
and possibly a leading minus sign. -/
theorem commaFmt2_mem (c : Int) :
    ∀ x ∈ (commaFmt2 c).data,
      isDigitCh x = true ∨ x = ',' ∨ x = '.' ∨ x = '-' := by
  intro x hx
  rw [commaFmt2] at hx
  simp only [String.data_append] at hx
  rcases List.mem_append.mp hx with hx | hx
  · rcases List.mem_append.mp hx with hx | hx
    · rcases List.mem_append.mp hx with hx | hx
      · by_cases hc : c < 0
        · rw [if_pos hc] at hx
          right; right; right
          simpa using hx
        · rw [if_neg hc] at hx
          simp at hx
      · rcases commaGroup_mem _ x hx with h | h
        · exact Or.inl h
        · exact Or.inr (Or.inl h)
    · right; right; left
      simpa using hx
  · left
    rw [twoDigits] at hx
    rcases List.mem_cons.mp hx with rfl | hx
    · exact digitChar_isDigit _
    · rcases List.mem_cons.mp hx with rfl | hx
      · exact digitChar_isDigit _
      · simp at hx

/-- Parsing the comma-stripped digits of `commaFmt2` recovers the cents. -/
theorem parseCents_commaFmt2 (c : Int) :
    parseCents ((commaFmt2 c).data.filter (· ≠ ',')) = some c := by
  have hq : c.natAbs % 100 < 100 := Nat.mod_lt _ (by omega)
  have hdot_int : '.' ∉ natToDigits (c.natAbs / 100) := by
    intro hm
    have := natToDigits_all_digits _ '.' hm
    simp [isDigitCh] at this
  have hdot_two : '.' ∉ twoDigits (c.natAbs % 100) := by
    intro hm
    rw [twoDigits] at hm
    rcases List.mem_cons.mp hm with hh | hm
    · have := digitChar_isDigit (c.natAbs % 100 / 10 % 10)
      rw [← hh] at this
      simp [isDigitCh] at this
    · rcases List.mem_cons.mp hm with hh | hm
      · have := digitChar_isDigit (c.natAbs % 100 % 10)
        rw [← hh] at this
        simp [isDigitCh] at this
      · simp at hm
  have htwo_self : (twoDigits (c.natAbs % 100)).filter (· ≠ ',') =
      twoDigits (c.natAbs % 100) := by
    rw [List.filter_eq_self]
    intro a ha
    rw [twoDigits] at ha
    have hdig : isDigitCh a = true := by
      rcases List.mem_cons.mp ha with rfl | ha
      · exact digitChar_isDigit _
      · rcases List.mem_cons.mp ha with rfl | ha
        · exact digitChar_isDigit _
        · simp at ha
    simp only [ne_eq, decide_eq_true_eq]
    intro hcomma
    rw [hcomma] at hdig
    simp [isDigitCh] at hdig
  have hfilter : (commaFmt2 c).data.filter (· ≠ ',') =
      ((if c < 0 then ['-'] else []) ++ natToDigits (c.natAbs / 100)) ++
        '.' :: twoDigits (c.natAbs % 100) := by
    rw [commaFmt2]
    simp only [String.data_append, List.filter_append]
    rw [commaGroup_filter, htwo_self,
      show (if c < 0 then ("-" : String) else "").data.filter (· ≠ ',') =
        (if c < 0 then ['-'] else []) by by_cases hc : c < 0 <;> simp [hc],
      show (("." : String).data).filter (· ≠ ',') = ['.'] by decide]
    simp
  have hbody : parseCents.parseCentsNat
      (natToDigits (c.natAbs / 100) ++ '.' :: twoDigits (c.natAbs % 100)) =
      some c.natAbs := by
    rw [parseCents.parseCentsNat, splitOnChar_append hdot_int,
      splitOnChar_not_mem hdot_two]
    simp only [parseNat_natToDigits, parseNat_twoDigits hq]
    rw [twoDigits]
    simp only [List.length_cons, List.length_nil]
    norm_num
    omega
  rw [hfilter]
  by_cases hc : c < 0
  · rw [if_pos hc]
    rw [show (['-'] ++ natToDigits (c.natAbs / 100)) ++ '.' :: twoDigits (c.natAbs % 100) =
      '-' :: (natToDigits (c.natAbs / 100) ++ '.' :: twoDigits (c.natAbs % 100)) by simp]
    rw [parseCents, if_pos rfl, hbody]
    exact congrArg some (by show -((c.natAbs : Int)) = c; omega)
  · rw [if_neg hc, List.nil_append]
    have hne := natToDigits_ne_nil (c.natAbs / 100)
    rcases hd : natToDigits (c.natAbs / 100) with _ | ⟨d0, ds⟩
    · exact absurd hd hne
    · have hd0 : d0 ≠ '-' := by
        have : isDigitCh d0 = true := natToDigits_all_digits _ d0 (by rw [hd]; simp)
        intro he
        rw [he] at this
        simp [isDigitCh] at this
      rw [List.cons_append, parseCents, if_neg hd0]
      have hb2 : parseCents.parseCentsNat (d0 :: (ds ++ '.' :: twoDigits (c.natAbs % 100))) =
          some c.natAbs := by
        rw [← List.cons_append, ← hd]
        exact hbody
      rw [hb2]
      exact congrArg some (by show ((c.natAbs : Int)) = c; omega)

/-! ### Substring classification helpers

If a pattern shares no character with a flanking string, an occurrence inside
the concatenation must lie inside the middle part. -/

theorem infix_of_append_left {sub a d : List Char} (hne : sub ≠ [])
    (hdisj : ∀ x ∈ sub, x ∉ a) : sub <:+: (a ++ d) → sub <:+: d := by
  induction a with
  | nil => simp
  | cons y a ih =>
    intro h
    rw [List.cons_append] at h
    rcases List.infix_cons_iff.mp h with hp | h
    · exfalso
      rcases sub with _ | ⟨s0, ss⟩
      · exact hne rfl
      · have := (List.cons_prefix_cons.mp hp).1
        exact hdisj s0 (by simp) (by simp [this])
    · exact ih (fun x hx hm => hdisj x hx (by simp [hm])) h

theorem infix_of_append_right {sub d c : List Char} (hne : sub ≠ [])
    (hdisj : ∀ x ∈ sub, x ∉ c) : sub <:+: (d ++ c) → sub <:+: d := by
  intro h
  have hrev : sub.reverse <:+: c.reverse ++ d.reverse := by
    rw [← List.reverse_append]
    exact List.reverse_infix.mpr h
  have := infix_of_append_left (by simpa using hne)
    (fun x hx hm => hdisj x (by simpa using hx) (by simpa using hm)) hrev
  exact List.reverse_infix.mp this

theorem infix_of_middle {sub a b c : List Char} (hne : sub ≠ [])
    (ha : ∀ x ∈ sub, x ∉ a) (hc : ∀ x ∈ sub, x ∉ c) :
    sub <:+: (a ++ b ++ c) → sub <:+: b := by
  intro h
  rw [List.append_assoc] at h
  exact infix_of_append_right hne hc (infix_of_append_left hne ha h)

/-- A non-empty-prefixed triple concatenation is not the empty string. -/
theorem string_append3_ne_empty (a b c : String) (ha : a.data ≠ []) :
    a ++ b ++ c ≠ "" := by
  intro h
  have hd := congrArg String.data h
  rw [String.data_append, String.data_append] at hd
  simp only [String.data] at hd
  simp at hd
  exact ha hd.1

/-- Round trip of one colorized currency field through the summary
extraction: the color prefix contains no `'$'`, the rendered number contains
no escape character, so the `split`/`split`/`replace` chain isolates exactly
the rendered digits. -/
theorem extract_money_field (color : String) (hc : '$' ∉ color.data) (c : Int) :
    parseCents (extractMoney (color ++ "$" ++ commaFmt2 c ++ styleRESET)) = some c := by
  have hmoney_nd : '$' ∉ (commaFmt2 c).data := by
    intro hm
    rcases commaFmt2_mem c _ hm with h | h | h | h
    · simp [isDigitCh] at h
    · exact absurd h (by decide)
    · exact absurd h (by decide)
    · exact absurd h (by decide)
  have hmoney_esc : '\x1b' ∉ (commaFmt2 c).data := by
    intro hm
    rcases commaFmt2_mem c _ hm with h | h | h | h
    · simp [isDigitCh] at h
    · exact absurd h (by decide)
    · exact absurd h (by decide)
    · exact absurd h (by decide)
  have hdata : (color ++ "$" ++ commaFmt2 c ++ styleRESET).data =
      color.data ++ '$' :: ((commaFmt2 c).data ++ styleRESET.data) := by
    simp [String.data_append]
  rw [extractMoney, hdata, splitOnChar_append hc]
  have hrest : '$' ∉ (commaFmt2 c).data ++ styleRESET.data := by
    intro hm
    rcases List.mem_append.mp hm with h | h
    · exact hmoney_nd h
    · exact absurd h (by decide)
  rw [splitOnChar_not_mem hrest]
  have hget : ((color.data :: [(commaFmt2 c).data ++ styleRESET.data]).getD 1 []) =
      (commaFmt2 c).data ++ styleRESET.data := rfl
  rw [hget,
    show styleRESET.data = '\x1b' :: ['[', '0', 'm'] from rfl,
    takeBeforeSeq_append _ _ hmoney_esc]
  exact parseCents_commaFmt2 c

/-! ## Claim theorems -/

/-! ### C1: summary-row classification -/

/-- C1: with the same `Language`, a summary row built by `format_backtest_row`
is always classified as a summary row by `print_backtest_results`; a per-trade
row whose ticker does not contain the localized heading is classified as a
ticker row; and classification depends only on the second column. -/
theorem c1_summary_classification (L : Language) :
    (∀ (date ticker action : String) (q p ls ss pv bc brc nc : Int)
        (tv rp cb tpv sh so dd : Option Int),
        isSummaryRow (summaryHeadingStr L)
          (format_backtest_row date ticker action q p ls ss pv bc brc nc true
            tv rp cb tpv sh so dd L) = true) ∧
    (∀ (date ticker action : String) (q p ls ss pv bc brc nc : Int)
        (tv rp cb tpv sh so dd : Option Int),
        pyContains ticker (summaryHeadingStr L) = false →
        isSummaryRow (summaryHeadingStr L)
          (format_backtest_row date ticker action q p ls ss pv bc brc nc false
            tv rp cb tpv sh so dd L) = false) ∧
    (∀ r r' : List String, r.getD 1 "" = r'.getD 1 "" →
        isSummaryRow (summaryHeadingStr L) r = isSummaryRow (summaryHeadingStr L) r') := by
  refine ⟨?_, ?_, ?_⟩
  · intro date ticker action q p ls ss pv bc brc nc tv rp cb tpv sh so dd
    rw [isSummaryRow,
      show (format_backtest_row date ticker action q p ls ss pv bc brc nc true
          tv rp cb tpv sh so dd L).getD 1 "" =
        foreWHITE ++ styleBRIGHT ++ summaryHeadingStr L ++ styleRESET from rfl,
      pyContains, decide_eq_true_eq]
    refine ⟨(foreWHITE ++ styleBRIGHT).data, styleRESET.data, ?_⟩
    simp [String.data_append]
  · intro date ticker action q p ls ss pv bc brc nc tv rp cb tpv sh so dd hnc
    rw [isSummaryRow,
      show (format_backtest_row date ticker action q p ls ss pv bc brc nc false
          tv rp cb tpv sh so dd L).getD 1 "" =
        foreCYAN ++ ticker ++ styleRESET from rfl,
      pyContains, decide_eq_false_iff_not]
    intro hinf
    have hd : (foreCYAN ++ ticker ++ styleRESET).data =
        foreCYAN.data ++ ticker.data ++ styleRESET.data := by simp
    rw [hd] at hinf
    have hmem : (summaryHeadingStr L).data <:+: ticker.data := by
      refine infix_of_middle ?_ ?_ ?_ hinf
      · cases L <;> decide
      · cases L <;> decide
      · cases L <;> decide
    rw [pyContains] at hnc
    exact (of_decide_eq_false hnc) hmem
  · intro r r' h
    rw [isSummaryRow, isSummaryRow, h]

/-- C1 (witness). -/
theorem c1_witness :
    pyContains "AAPL" (summaryHeadingStr .EN) = false ∧
      isSummaryRow (summaryHeadingStr .EN)
        (format_backtest_row "2024-01-02" "AAPL" "buy" 1 1 0 0 0 0 0 0 false
          none none none none none none none .EN) = false ∧
      isSummaryRow (summaryHeadingStr .EN)
        (format_backtest_row "2024-01-02" "" "" 0 0 0 0 0 0 0 0 true
          none none none none none none none .EN) = true :=
  ⟨by decide,
   (c1_summary_classification .EN).2.1 "2024-01-02" "AAPL" "buy" 1 1 0 0 0 0 0 0
     none none none none none none none (by decide),
   (c1_summary_classification .EN).1 "2024-01-02" "" "" 0 0 0 0 0 0 0 0
     none none none none none none none⟩

/-! ### C2: currency round trip through the summary extraction -/

/-- C2: for every cash balance, total position value and total value (in exact
cents), parsing the colorized field of a summary row with the extraction chain
of `print_backtest_results` recovers exactly the original value; concretely,
`1234567.89` renders as `"$1,234,567.89"` inside cyan/reset markers. -/
theorem c2_money_roundtrip (c1 c2 c3 : Int) (date ticker action : String)
    (q p ls ss pv bc brc nc : Int) (rp sh so dd : Option Int) (L : Language) :
    parseCents (extractMoney ((format_backtest_row date ticker action q p ls ss pv
        bc brc nc true (some c3) rp (some c1) (some c2) sh so dd L).getD 8 "")) =
      some c1 ∧
    parseCents (extractMoney ((format_backtest_row date ticker action q p ls ss pv
        bc brc nc true (some c3) rp (some c1) (some c2) sh so dd L).getD 7 "")) =
      some c2 ∧
    parseCents (extractMoney ((format_backtest_row date ticker action q p ls ss pv
        bc brc nc true (some c3) rp (some c1) (some c2) sh so dd L).getD 9 "")) =
      some c3 ∧
    commaFmt2 123456789 = "1,234,567.89" ∧
    (format_backtest_row "2024-01-01" "" "" 0 0 0 0 0 0 0 0 true none none
        (some 123456789) none none none none .ZH).getD 8 "" =
      foreCYAN ++ "$1,234,567.89" ++ styleRESET := by
  refine ⟨?_, ?_, ?_, by decide, by decide⟩
  · rw [show (format_backtest_row date ticker action q p ls ss pv bc brc nc true
        (some c3) rp (some c1) (some c2) sh so dd L).getD 8 "" =
      foreCYAN ++ "$" ++ commaFmt2 c1 ++ styleRESET from rfl]
    exact extract_money_field foreCYAN (by decide) c1
  · rw [show (format_backtest_row date ticker action q p ls ss pv bc brc nc true
        (some c3) rp (some c1) (some c2) sh so dd L).getD 7 "" =
      foreYELLOW ++ "$" ++ commaFmt2 c2 ++ styleRESET from rfl]
    exact extract_money_field foreYELLOW (by decide) c2
  · rw [show (format_backtest_row date ticker action q p ls ss pv bc brc nc true
        (some c3) rp (some c1) (some c2) sh so dd L).getD 9 "" =
      foreWHITE ++ "$" ++ commaFmt2 c3 ++ styleRESET from rfl]
    exact extract_money_field foreWHITE (by decide) c3

/-! ### C9: presence, not truthiness, of the ratio fields -/

/-- C9: in a summary row the Sharpe, Sortino and max-drawdown fields are empty
exactly when the corresponding input is absent; a present zero renders as the
colored `"0.00"` (resp. `"0.00%"`), not as the empty string. -/
theorem c9_ratio_fields (date ticker action : String)
    (q p ls ss pv bc brc nc : Int) (tv rp cb tpv sh so dd : Option Int)
    (L : Language) (row : List String)
    (hrow : row = format_backtest_row date ticker action q p ls ss pv bc brc nc
      true tv rp cb tpv sh so dd L) :
    ((row.getD 11 "" = "") ↔ sh = none) ∧
    ((row.getD 12 "" = "") ↔ so = none) ∧
    ((row.getD 13 "" = "") ↔ dd = none) ∧
    (sh = some 0 → row.getD 11 "" = foreYELLOW ++ "0.00" ++ styleRESET) ∧
    (so = some 0 → row.getD 12 "" = foreYELLOW ++ "0.00" ++ styleRESET) ∧
    (dd = some 0 → row.getD 13 "" = foreRED ++ "0.00%" ++ styleRESET) := by
  subst hrow
  refine ⟨?_, ?_, ?_, ?_, ?_, ?_⟩
  · rcases sh with _ | v
    · rw [show (format_backtest_row date ticker action q p ls ss pv bc brc nc
        true tv rp cb tpv none so dd L).getD 11 "" = "" from rfl]
      simp
    · rw [show (format_backtest_row date ticker action q p ls ss pv bc brc nc
        true tv rp cb tpv (some v) so dd L).getD 11 "" =
          foreYELLOW ++ fmt2 v ++ styleRESET from rfl]
      constructor
      · intro h
        exact absurd h (string_append3_ne_empty _ _ _ (by decide))
      · intro h
        exact absurd h (by simp)
  · rcases so with _ | v
    · rw [show (format_backtest_row date ticker action q p ls ss pv bc brc nc
        true tv rp cb tpv sh none dd L).getD 12 "" = "" from rfl]
      simp
    · rw [show (format_backtest_row date ticker action q p ls ss pv bc brc nc
        true tv rp cb tpv sh (some v) dd L).getD 12 "" =
          foreYELLOW ++ fmt2 v ++ styleRESET from rfl]
      constructor
      · intro h
        exact absurd h (string_append3_ne_empty _ _ _ (by decide))
      · intro h
        exact absurd h (by simp)
  · rcases dd with _ | v
    · rw [show (format_backtest_row date ticker action q p ls ss pv bc brc nc
        true tv rp cb tpv sh so none L).getD 13 "" = "" from rfl]
      simp
    · rw [show (format_backtest_row date ticker action q p ls ss pv bc brc nc
        true tv rp cb tpv sh so (some v) L).getD 13 "" =
          foreRED ++ fmt2 ((v.natAbs : Int)) ++ "%" ++ styleRESET from rfl]
      constructor
      · intro h
        exfalso
        have hd := congrArg String.data h
        rw [String.data_append, String.data_append, String.data_append,
          show foreRED.data = '\x1b' :: ['[', '3', '1', 'm'] from rfl] at hd
        simp at hd
      · intro h
        exact absurd h (by simp)
  · intro h
    subst h
    rw [show (format_backtest_row date ticker action q p ls ss pv bc brc nc
      true tv rp cb tpv (some 0) so dd L).getD 11 "" =
        foreYELLOW ++ fmt2 0 ++ styleRESET from rfl,
      show fmt2 0 = "0.00" by decide]
  · intro h
    subst h
    rw [show (format_backtest_row date ticker action q p ls ss pv bc brc nc
      true tv rp cb tpv sh (some 0) dd L).getD 12 "" =
        foreYELLOW ++ fmt2 0 ++ styleRESET from rfl,
      show fmt2 0 = "0.00" by decide]
  · intro h
    subst h
    rw [show (format_backtest_row date ticker action q p ls ss pv bc brc nc
      true tv rp cb tpv sh so (some 0) L).getD 13 "" =
        foreRED ++ fmt2 ((Int.natAbs 0 : Int)) ++ "%" ++ styleRESET from rfl,
      show fmt2 ((Int.natAbs 0 : Int)) = "0.00" by decide,
      show foreRED ++ "0.00" ++ "%" ++ styleRESET =
        foreRED ++ "0.00%" ++ styleRESET by decide]

/-- C9 (witness). -/
theorem c9_witness :
    (format_backtest_row "d" "t" "a" 0 0 0 0 0 0 0 0 true none none none none
        (some 0) (some 0) (some 0) .ZH).getD 11 "" =
      foreYELLOW ++ "0.00" ++ styleRESET :=
  (c9_ratio_fields "d" "t" "a" 0 0 0 0 0 0 0 0 none none none none
    (some 0) (some 0) (some 0) .ZH _ rfl).2.2.2.1 rfl

/-! ### C3: `combine_translations` in BOTH mode -/

/-- C3 (counterexample): contrary to the claim, duplicate detection is NOT by
exact raw string equality: with `zh_text = "hello"` and `en_text = " hello "`
the raw strings differ, yet the code strips both and omits the secondary,
returning `"hello"` instead of the join the claim predicts. -/
theorem c3_counterexample :
    combine_translations "hello" " hello " .BOTH " / " = "hello" ∧
      combine_translations "hello" " hello " .BOTH " / " ≠
        "hello" ++ " / " ++ " hello " := by
  constructor
  · decide
  · decide

/-- C3 (amended): in BOTH mode the joined parts are the whitespace-stripped
texts; the secondary is omitted when its stripped form is empty or equal to
the stripped primary, the primary when its stripped form is empty; when both
stripped forms are empty the raw `en_text` is preferred, else `zh_text`. -/
theorem c3_both_stripped (zh_text en_text : String) :
    combine_translations zh_text en_text .BOTH " / " =
      (if pyStrip zh_text ≠ "" then
        (if pyStrip en_text ≠ "" ∧ pyStrip en_text ≠ pyStrip zh_text then
          pyStrip zh_text ++ " / " ++ pyStrip en_text
         else pyStrip zh_text)
       else if pyStrip en_text ≠ "" then pyStrip en_text
       else pyOr en_text zh_text) := by
  by_cases hz : pyStrip zh_text = "" <;> by_cases he : pyStrip en_text = "" <;>
    by_cases hez : pyStrip en_text = pyStrip zh_text <;>
      simp [combine_translations, pyJoin, hz, he, hez]

/-! ### C4: wrap re-application -/

/-- C4 (counterexample): the claim's "only when" direction fails — re-wrapping
is a no-op even for an input with a pre-existing line break (`"a\nb"`) and
even for an input whose single word is longer than 60 characters. -/
theorem c4_counterexample :
    (wrapText (wrapText "a\nb") = wrapText "a\nb" ∧ '\n' ∈ "a\nb".data) ∧
      (wrapText (wrapText ⟨List.replicate 61 'a'⟩) =
          wrapText ⟨List.replicate 61 'a'⟩ ∧
        60 < (⟨List.replicate 61 'a'⟩ : String).length) := by
  exact ⟨⟨by decide, by decide⟩, by decide, by decide⟩

/-- C4 (amended): wrapping depends only on the whitespace-separated word
sequence, which wrapping preserves, so re-applying the wrap operation to its
own output is a no-op for EVERY input — with or without long words or
pre-existing line breaks. -/
theorem c4_wrap_idempotent (s : String) : wrapText (wrapText s) = wrapText s := by
  show (⟨wrapAux [] [] (pySplit (wrapText s).data)⟩ : String) = wrapText s
  rw [pySplit_wrapText s]
  rfl

/-! ### C5: the flush condition of the wrap loop -/

/-- C5 (counterexample): the loop flushes with NO emptiness guard, so a first
word of length 60 makes the loop emit a line break while the current line is
empty: the output starts with an empty line, contradicting "the wrapped
output never contains an empty line". -/
theorem c5_counterexample :
    [] ∈ linesOf (wrapText ⟨List.replicate 60 'a'⟩) := by
  decide

/-- C5 (amended): the flush happens whenever
`currentLineLength + 1 + wordLength > 60`, with no non-emptiness guard; the
current line is empty only before the first word, so the output contains an
empty line exactly when the first word's length is at least 60. -/
theorem c5_flush_unguarded (s : String) (w : List Char) (ws : List (List Char))
    (h : pySplit s.data = w :: ws) :
    ([] ∈ linesOf (wrapText s) ↔ 60 ≤ w.length) := by
  have hgood := pySplit_words_good s.data
  rw [h] at hgood
  have hw := hgood w (by simp)
  have hws : ∀ w' ∈ ws, w' ≠ [] ∧ '\n' ∉ w' := by
    intro w' hw'
    have := hgood w' (by simp [hw'])
    exact ⟨this.1, fun hm => by simpa using this.2 '\n' hm⟩
  have hlines : linesOf (wrapText s) = splitOnChar '\n' (wrapAux [] [] (w :: ws)) := by
    show splitOnChar '\n' (wrapAux [] [] (pySplit s.data)) = _
    rw [h]
  rw [hlines]
  constructor
  · intro hmem
    by_contra hlt
    push_neg at hlt
    rw [wrapAux, if_neg (by simp; omega), if_pos (by simp)] at hmem
    exact wrapAux_no_empty_line ws w hw.1
      (fun hm => by simpa using hw.2 '\n' hm) hws hmem
  · intro hle
    rw [wrapAux, if_pos (by simp; omega), wrapAux_acc]
    have heq : ([] : List Char) ++ [] ++ ['\n'] ++ wrapAux [] w ws =
        '\n' :: wrapAux [] w ws := by simp
    rw [heq, splitOnChar, if_pos rfl]
    simp

/-- C5 (witness). -/
theorem c5_witness :
    pySplit (⟨List.replicate 60 'a'⟩ : String).data =
        [(List.replicate 60 'a' : List Char)] ∧
      ([] ∈ linesOf (wrapText ⟨List.replicate 60 'a'⟩) ↔
        60 ≤ (List.replicate 60 'a' : List Char).length) :=
  ⟨by decide,
    c5_flush_unguarded ⟨List.replicate 60 'a'⟩ (List.replicate 60 'a') [] (by decide)⟩

/-! ### C6: line length bound -/

/-- C6: every line of the wrapped output is at most 60 characters long, or is
a single unsplittable word (no whitespace) longer than 60 characters. -/
theorem c6_line_bound (s : String) :
    ∀ line ∈ linesOf (wrapText s),
      line.length ≤ 60 ∨ (60 < line.length ∧ ∀ x ∈ line, x.isWhitespace = false) :=
  fun line hline =>
    wrapAux_lines (pySplit s.data) [] (by simp) (Or.inl (by simp))
      (pySplit_words_good s.data) line hline

/-- C6 (witness). -/
theorem c6_witness :
    "hello".data ∈ linesOf (wrapText "hello") ∧
      ("hello".data.length ≤ 60 ∨
        (60 < "hello".data.length ∧ ∀ x ∈ "hello".data, x.isWhitespace = false)) :=
  ⟨by decide, c6_line_bound "hello" "hello".data (by decide)⟩

/-! ### C8: `Language.from_value` is total and case-insensitive -/

/-- C8: `from_value` never fails: `None` and `""` resolve to `ZH`; any string
matching `"zh"`, `"en"` or `"both"` case-insensitively maps to the
corresponding variant; everything else (e.g. `"FR"`) falls back to `ZH`. -/
theorem c8_from_value (s : String) :
    Language.from_value none = .ZH ∧
    Language.from_value (some "") = .ZH ∧
    Language.from_value (some s) =
      (if pyLower s = "zh" then .ZH
       else if pyLower s = "en" then .EN
       else if pyLower s = "both" then .BOTH
       else .ZH) ∧
    Language.from_value (some "FR") = .ZH ∧
    Language.from_value (some "Both") = .BOTH := by
  refine ⟨rfl, by decide, ?_, by decide, by decide⟩
  rw [Language.from_value]
  by_cases h0 : s = ""
  · subst h0
    decide
  · rw [if_neg h0, langCtor]
    by_cases h1 : pyLower s = "zh"
    · simp [h1]
    · by_cases h2 : pyLower s = "en"
      · simp [h1, h2]
      · by_cases h3 : pyLower s = "both"
        · simp [h1, h2, h3]
        · simp [h1, h2, h3]

/-! ### `translate_text` evaluation helpers -/

theorem translate_text_error_left {key zh en : String} {L : Language}
    {fb : Option String} {kwargs : List (String × String)} {e : String}
    (hlk : lookupTranslation key = some (zh, en))
    (hz : pyFormat zh kwargs = .error e) :
    translate_text key L fb kwargs = .error e := by
  simp only [translate_text, hlk]
  rw [hz]
  rfl

theorem translate_text_error_right {key zh en : String} {L : Language}
    {fb : Option String} {kwargs : List (String × String)} {fz e : String}
    (hlk : lookupTranslation key = some (zh, en))
    (hz : pyFormat zh kwargs = .ok fz) (he : pyFormat en kwargs = .error e) :
    translate_text key L fb kwargs = .error e := by
  simp only [translate_text, hlk]
  rw [hz, he]
  rfl

theorem translate_text_ok {key zh en : String} {L : Language}
    {fb : Option String} {kwargs : List (String × String)} {fz fe : String}
    (hlk : lookupTranslation key = some (zh, en))
    (hz : pyFormat zh kwargs = .ok fz) (he : pyFormat en kwargs = .ok fe) :
    translate_text key L fb kwargs =
      .ok (combine_translations fz fe L " / ") := by
  simp only [translate_text, hlk]
  rw [hz, he]
  rfl

/-- `pyFormat` succeeds iff the scan succeeds at fuel = length. -/
theorem pyFormat_ok_iff (t : String) (kwargs : List (String × String)) :
    (∃ r, pyFormat t kwargs = .ok r) ↔
      (∃ ns, placeholdersOf t = some ns ∧
        ∀ n ∈ ns, (pyGet kwargs n).isSome = true) := by
  rw [pyFormat, placeholdersOf, exists_ok_map]
  exact formatFuel_ok_iff kwargs t.data.length t.data

/-! ### C7: error behaviour of `translate_text` -/

/-- C7: a missing key never raises — the fallback (or the empty string) is
combined as both languages, with no formatting applied; when the key is
present and a template references a placeholder that is not supplied, the
formatting error propagates out of `translate_text`. -/
theorem c7_translate_text :
    (∀ (key : String) (L : Language) (fb : Option String)
        (kwargs : List (String × String)),
        lookupTranslation key = none →
        translate_text key L fb kwargs =
          .ok (combine_translations (fb.getD "") (fb.getD "") L " / ")) ∧
    (∀ (key zh en : String) (L : Language) (fb : Option String)
        (kwargs : List (String × String)) (ns : List String) (p : String),
        lookupTranslation key = some (zh, en) →
        ((placeholdersOf zh = some ns ∧ p ∈ ns) ∨
          (placeholdersOf en = some ns ∧ p ∈ ns)) →
        pyGet kwargs p = none →
        ∃ e, translate_text key L fb kwargs = .error e) := by
  constructor
  · intro key L fb kwargs h
    rw [translate_text, h]
  · intro key zh en L fb kwargs ns p hlk href hmiss
    rcases hz : pyFormat zh kwargs with ez | fz
    · exact ⟨ez, translate_text_error_left hlk hz⟩
    · rcases he : pyFormat en kwargs with ee | fe
      · exact ⟨ee, translate_text_error_right hlk hz he⟩
      · exfalso
        rcases href with ⟨hph, hp⟩ | ⟨hph, hp⟩
        · rcases (pyFormat_ok_iff zh kwargs).mp ⟨fz, hz⟩ with ⟨ns2, hns2, hall⟩
          rw [hph] at hns2
          have := hall p (by rw [← Option.some.injEq ns ns2 |>.mp hns2]; exact hp)
          rw [hmiss] at this
          simp at this
        · rcases (pyFormat_ok_iff en kwargs).mp ⟨fe, he⟩ with ⟨ns2, hns2, hall⟩
          rw [hph] at hns2
          have := hall p (by rw [← Option.some.injEq ns ns2 |>.mp hns2]; exact hp)
          rw [hmiss] at this
          simp at this

/-- C7 (witness). -/
theorem c7_witness :
    (lookupTranslation "no.such.key" = none ∧
      translate_text "no.such.key" .BOTH (some "FB") [] =
        .ok (combine_translations "FB" "FB" .BOTH " / ")) ∧
    (lookupTranslation "cli.analysis_for" =
        some ("{ticker} 分析", "Analysis for {ticker}") ∧
      placeholdersOf "{ticker} 分析" = some ["ticker"] ∧
      pyGet [] "ticker" = none ∧
      ∃ e, translate_text "cli.analysis_for" .ZH none [] = .error e) :=
  ⟨⟨by decide, c7_translate_text.1 "no.such.key" .BOTH (some "FB") [] (by decide)⟩,
   ⟨by decide, by decide, by decide,
    c7_translate_text.2 "cli.analysis_for" "{ticker} 分析" "Analysis for {ticker}"
      .ZH none [] ["ticker"] "ticker" (by decide)
      (Or.inl ⟨by decide, by decide⟩) (by decide)⟩⟩

/-! ### C10: both templates are formatted regardless of language -/

set_option maxRecDepth 80000 in
theorem placeholderSymCheck_true : placeholderSymCheck = true := by decide

/-- C10 (counterexample, by refuting the claim's existential): because every
key's zh and en templates reference identical placeholder sets, no call can
fail solely because of the template of the non-displayed language: whenever
the displayed-language template formats successfully, the whole call
succeeds. -/
theorem c10_counterexample :
    ¬ ∃ (key zh en : String) (fb : Option String)
        (kwargs : List (String × String)),
        lookupTranslation key = some (zh, en) ∧
        (((∃ r, pyFormat zh kwargs = .ok r) ∧
            ∃ e, translate_text key .ZH fb kwargs = .error e) ∨
          ((∃ r, pyFormat en kwargs = .ok r) ∧
            ∃ e, translate_text key .EN fb kwargs = .error e)) := by
  rintro ⟨key, zh, en, fb, kwargs, hlk, hbad⟩
  obtain ⟨entry, hfind, hsnd⟩ :
      ∃ entry, TRANSLATIONS.find? (fun e => e.1 == key) = some entry ∧
        entry.2 = (zh, en) := by
    rcases Option.map_eq_some'.mp hlk with ⟨entry, hfind, hsnd⟩
    exact ⟨entry, hfind, hsnd⟩
  have hmem : entry ∈ TRANSLATIONS := List.mem_of_find?_eq_some hfind
  have hcheck := List.all_eq_true.mp placeholderSymCheck_true entry hmem
  rw [show entry.2.1 = zh by rw [hsnd], show entry.2.2 = en by rw [hsnd]] at hcheck
  rcases hz : placeholdersOf zh with _ | zs <;> rw [hz] at hcheck
  · simp at hcheck
  rcases he : placeholdersOf en with _ | es <;> rw [he] at hcheck
  · simp at hcheck
  have hsub1 : ∀ n ∈ zs, n ∈ es := by
    intro n hn
    have := (List.all_eq_true.mp (Bool.and_elim_left hcheck)) n hn
    simpa using this
  have hsub2 : ∀ n ∈ es, n ∈ zs := by
    intro n hn
    have := (List.all_eq_true.mp (Bool.and_elim_right hcheck)) n hn
    simpa using this
  rcases hbad with ⟨⟨fz, hokz⟩, ⟨e, herr⟩⟩ | ⟨⟨fe, hoke⟩, ⟨e, herr⟩⟩
  · rcases (pyFormat_ok_iff zh kwargs).mp ⟨fz, hokz⟩ with ⟨ns, hns, hall⟩
    rw [hz, Option.some.injEq] at hns
    subst hns
    have hoken : ∃ r, pyFormat en kwargs = .ok r :=
      (pyFormat_ok_iff en kwargs).mpr ⟨es, he, fun n hn => hall n (hsub2 n hn)⟩
    rcases hoken with ⟨fe, hoke⟩
    rw [translate_text_ok hlk hokz hoke] at herr
    simp at herr
  · rcases (pyFormat_ok_iff en kwargs).mp ⟨fe, hoke⟩ with ⟨ns, hns, hall⟩
    rw [he, Option.some.injEq] at hns
    subst hns
    have hokzh : ∃ r, pyFormat zh kwargs = .ok r :=
      (pyFormat_ok_iff zh kwargs).mpr ⟨zs, hz, fun n hn => hall n (hsub1 n hn)⟩
    rcases hokzh with ⟨fz, hokz⟩
    rw [translate_text_ok hlk hokz hoke] at herr
    simp at herr

/-- C10 (amended): when the key is present, `translate_text` formats BOTH
templates regardless of the requested language — the call succeeds iff both
the zh and the en template format successfully; but since the shipped table
is placeholder-symmetric, no error is attributable solely to the
non-displayed template. -/
theorem c10_both_always_formatted (key : String) (L : Language)
    (fb : Option String) (kwargs : List (String × String)) (zh en : String)
    (h : lookupTranslation key = some (zh, en)) :
    ((∃ r, translate_text key L fb kwargs = .ok r) ↔
      ((∃ r, pyFormat zh kwargs = .ok r) ∧ ∃ r, pyFormat en kwargs = .ok r)) := by
  constructor
  · rintro ⟨r, hr⟩
    rcases hz : pyFormat zh kwargs with e | fz
    · rw [translate_text_error_left h hz] at hr
      simp at hr
    · rcases he : pyFormat en kwargs with e | fe
      · rw [translate_text_error_right h hz he] at hr
        simp at hr
      · exact ⟨⟨fz, rfl⟩, ⟨fe, rfl⟩⟩
  · rintro ⟨⟨fz, hz⟩, ⟨fe, he⟩⟩
    exact ⟨_, translate_text_ok h hz he⟩

/-- C10 (witness). -/
theorem c10_witness :
    lookupTranslation "cli.analysis_for" =
        some ("{ticker} 分析", "Analysis for {ticker}") ∧
      ((∃ r, translate_text "cli.analysis_for" .ZH none [] = .ok r) ↔
        ((∃ r, pyFormat "{ticker} 分析" [] = .ok r) ∧
          ∃ r, pyFormat "Analysis for {ticker}" [] = .ok r)) :=
  ⟨by decide,
   c10_both_always_formatted "cli.analysis_for" .ZH none []
     "{ticker} 分析" "Analysis for {ticker}" (by decide)⟩

end AIHedgeFund
